import Mathlib

/-!
Shallow embedding of the NSG rule merge engine (`src/nsg_merger.py`) and the
CIDR helper (`src/azure_helper.py`).  Pure string manipulation is modelled on
`List Char` with structural (fuel-based where needed) recursion so that every
definition evaluates by kernel reduction.  Machine integers are `Int`/`Nat`
(Python integers are unbounded, so no modular wrap is needed).
-/

namespace NsgBuilder

/-! ### Character / string helpers (embedding Python `str` methods and the
pre-compiled regexes `RE_ALPHANUMERIC`, `RE_DOT_BETWEEN_NUMBERS`,
`RE_WHITESPACE` of `nsg_merger.py`). -/

/-- Python `\s` (ASCII range, the characters relevant to this data). -/
def isPySpace (c : Char) : Bool :=
  c == ' ' || c == '\t' || c == '\n' || c == '\r' || c == '\x0b' || c == '\x0c'

/-- ASCII uppercase of one char, as Python `str.upper` acts on ASCII. -/
def upChar (c : Char) : Char :=
  if 'a' ≤ c ∧ c ≤ 'z' then Char.ofNat (c.toNat - 32) else c

/-- ASCII lowercase of one char, as Python `str.lower` acts on ASCII. -/
def downChar (c : Char) : Char :=
  if 'A' ≤ c ∧ c ≤ 'Z' then Char.ofNat (c.toNat + 32) else c

/-- Python `str.upper()` (ASCII fragment). -/
def strUpper (s : String) : String := String.mk (s.data.map upChar)

/-- Python `str.lower()` (ASCII fragment). -/
def strLower (s : String) : String := String.mk (s.data.map downChar)

/-- Python `str.strip()`: drop whitespace from both ends. -/
def trimChars (l : List Char) : List Char :=
  ((l.dropWhile isPySpace).reverse.dropWhile isPySpace).reverse

/-- Python `str.strip()` on a string. -/
def strTrim (s : String) : String := String.mk (trimChars s.data)

/-- Contiguous-substring test, Python `needle in hay`. -/
def hasSubList (needle : List Char) : List Char → Bool
  | [] => needle.isEmpty
  | c :: rest => needle.isPrefixOf (c :: rest) || hasSubList needle rest

/-- Python `needle in hay` on strings. -/
def hasSub (needle hay : String) : Bool := hasSubList needle.data hay.data

/-- Embeds `RE_ALPHANUMERIC.sub("", s)`: keep only ASCII letters and digits. -/
def stripNonAlnum (s : String) : String := String.mk (s.data.filter Char.isAlphanum)

/-- Embeds `RE_WHITESPACE.sub("", ·)`: delete all whitespace. -/
def removeWs (l : List Char) : List Char := l.filter (fun c => !(isPySpace c))

/-- Python `str.strip(",")`: drop commas from both ends. -/
def stripCommas (l : List Char) : List Char :=
  ((l.dropWhile (fun c => c == ',')).reverse.dropWhile (fun c => c == ',')).reverse

/-- Python `str.take`-like slice `s[:n]` (by characters). -/
def strTake (n : Nat) (s : String) : String := String.mk (s.data.take n)

/-- Match `\s*\.\s*(\d)` at the head of the list, returning the captured digit
and the remainder after it (helper for `RE_DOT_BETWEEN_NUMBERS`). -/
def dotMatch (l : List Char) : Option (Char × List Char) :=
  match l.dropWhile isPySpace with
  | '.' :: l2 =>
    match l2.dropWhile isPySpace with
    | d :: l4 => if d.isDigit then some (d, l4) else none
    | [] => none
  | _ => none

/-- Fuel-driven scan implementing `RE_DOT_BETWEEN_NUMBERS.sub(r"\1,\2", ·)`
(left-to-right, non-overlapping, scanning resumes after the second digit).
The fuel starts at the input length and every step consumes at least one
input character, so the fuel never runs out on the recursion path. -/
def dotSubF : Nat → List Char → List Char
  | 0, l => l
  | _ + 1, [] => []
  | f + 1, c :: rest =>
    if c.isDigit then
      match dotMatch rest with
      | some (d2, rest2) => c :: ',' :: d2 :: dotSubF f rest2
      | none => c :: dotSubF f rest
    else c :: dotSubF f rest

/-- Embeds `RE_DOT_BETWEEN_NUMBERS.sub(r"\1,\2", s)`. -/
def dotSub (l : List Char) : List Char := dotSubF l.length l

/-- Fuel-driven Python `str.replace` (all non-overlapping occurrences,
left-to-right; the replacement text is not rescanned). -/
def replFuel (pat rep : List Char) : Nat → List Char → List Char
  | 0, l => l
  | _ + 1, [] => []
  | f + 1, c :: rest =>
    if pat.isPrefixOf (c :: rest) && !pat.isEmpty then
      rep ++ replFuel pat rep f (List.drop (pat.length - 1) rest)
    else c :: replFuel pat rep f rest

/-- Python `str.replace(pat, rep)` on char lists. -/
def replaceList (pat rep l : List Char) : List Char := replFuel pat rep l.length l

/-- Python `s.replace(pat, rep)` on strings. -/
def strReplace (s pat rep : String) : String :=
  String.mk (replaceList pat.data rep.data s.data)

/-- Is the (stripped, lowered) cell one of the wildcard spellings recognised by
`clean_port` / `clean_ip`? -/
def isWildcardCell (val : String) : Bool :=
  let v := strLower (strTrim val)
  v == "" || v == "any" || v == "all" || v == "*"

/-- Function `clean_port` from `nsg_merger.py`: wildcard detection, dots between digits
to commas, whitespace removal, double-comma collapse, strip commas. -/
def clean_port (val : String) : String :=
  if isWildcardCell val then "*"
  else
    let cleaned := dotSub val.data
    String.mk (stripCommas (replaceList [',', ','] [','] (removeWs cleaned)))

/-- Function `clean_ip` from `nsg_merger.py`: wildcard detection, whitespace removal,
strip commas. -/
def clean_ip (val : String) : String :=
  if isWildcardCell val then "*"
  else String.mk (stripCommas (removeWs val.data))

/-! ### Configuration constants and the `api_map` dictionary. -/

def START_PRIORITY : Int := 1000
def PRIORITY_STEP : Int := 10

/-- The `api_map` dictionary of `merge_nsg_rules` as a partial lookup. -/
def api_map (s : String) : Option String :=
  if s = "TCP" then some "Tcp"
  else if s = "UDP" then some "Udp"
  else if s = "ICMP" then some "Icmp"
  else if s = "ANY" then some "*"
  else if s = "*" then some "*"
  else if s = "INBOUND" then some "Inbound"
  else if s = "OUTBOUND" then some "Outbound"
  else if s = "ALLOW" then some "Allow"
  else if s = "DENY" then some "Deny"
  else none

/-- Python `api_map.get(s, dflt)`. -/
def api_map_get (s dflt : String) : String := (api_map s).getD dflt

/-! ### Data model. -/

/-- One firewall rule record as built by `merge_nsg_rules` (the keys of the
rule dictionaries; `source_addr`/`dest_addr` stand for the
`source_address_prefix` / `destination_address_prefix` keys, renamed only
because of lexical constraints of this development). -/
structure Rule where
  name : String
  description : String
  priority : Int
  direction : String
  access : String
  protocol : String
  source_addr : String
  source_port : String
  dest_addr : String
  dest_port : String
deriving DecidableEq, Repr

/-- The `AzureRule` namedtuple of `azure_helper.py`. -/
structure AzureRule where
  name : String
  priority : Int
  direction : String
  access : String
  protocol : String
  source : String
  destination : String
  dest_port : String
deriving DecidableEq, Repr

/-- One spreadsheet row (client request or base/template rule).  The cell
texts are carried verbatim; `priority` is the result of the
`int(float(row["Priority"]))` parse, `none` when the cell is empty/NaN or the
parse raises. -/
structure Row where
  direction : String
  priority : Option Int
  access : String
  protocol : String
  source : String
  destination : String
  dest_port : String
  description : String
deriving DecidableEq, Repr

/-! ### The priority → rule mapping (`merged_rules`, a Python dict).
Modelled as an association list with Python-dict update semantics:
overwriting keeps the position, a fresh key is appended. -/

/-- Python dict assignment `merged_rules[p] = r`. -/
def setKey : List (Int × Rule) → Int → Rule → List (Int × Rule)
  | [], p, r => [(p, r)]
  | (q, s) :: rest, p, r =>
    if q = p then (p, r) :: rest else (q, s) :: setKey rest p r

/-- Python dict lookup `merged_rules.get(p)`. -/
def lookupKey : List (Int × Rule) → Int → Option Rule
  | [], _ => none
  | (q, s) :: rest, p => if q = p then some s else lookupKey rest p

/-- Python dict key membership `p in merged_rules`. -/
def hasKey (m : List (Int × Rule)) (p : Int) : Bool := (lookupKey m p).isSome

/-- The key set of the mapping, as a `Finset`. -/
def keysF (m : List (Int × Rule)) : Finset Int := (m.map Prod.fst).toFinset

/-! ### Per-segment merge state: the dict `merged_rules`, the two used-priority
sets and the two counters `prio_counters = {"IN": 1000, "OUT": 1000}`. -/

structure MState where
  merged : List (Int × Rule)
  usedIn : Finset Int
  usedOut : Finset Int
  cIn : Int
  cOut : Int
deriving DecidableEq

/-! ### Stage 1: seed from the existing rule set. -/

/-- Embeds `for r in existing_rules_list: merged_rules[r['priority']] = r`. -/
def seedMerged (existing : List Rule) : List (Int × Rule) :=
  existing.foldl (fun m r => setKey m r.priority r) []

/-- Lines 234–237 of `nsg_merger.py`: populate `merged_rules` and the two
used-priority sets from the parsed existing rules, and initialise both
counters to the constant `START_PRIORITY`. -/
def seedState (existing : List Rule) : MState :=
  let merged := seedMerged existing
  { merged := merged
    usedIn := (((merged.map Prod.snd).filter
        (fun r => hasSub "IN" (strUpper r.direction))).map Rule.priority).toFinset
    usedOut := (((merged.map Prod.snd).filter
        (fun r => hasSub "OUT" (strUpper r.direction))).map Rule.priority).toFinset
    cIn := START_PRIORITY
    cOut := START_PRIORITY }

/-! ### The priority allocator (the `while` loop of lines 303–304).
The scan `while counter in used or counter in merged: counter += STEP` is
embedded with explicit fuel; `bad.card + 1` probes suffice because the probed
values are pairwise distinct, so one of them must lie outside `bad`. -/

/-- Scan upward from `c` in steps of `PRIORITY_STEP`, skipping members of
`bad`, with the given fuel. -/
def scanFree (bad : Finset Int) : Nat → Int → Int
  | 0, c => c
  | f + 1, c => if c ∈ bad then scanFree bad f (c + PRIORITY_STEP) else c

/-- The value the `while` loop leaves in the counter: the first value of the
progression `c, c+10, c+20, …` outside `bad`. -/
def allocFirst (c : Int) (bad : Finset Int) : Int := scanFree bad (bad.card + 1) c

/-! ### Stage 2: Azure drift import (lines 253–273). -/

/-- The `rule_dict` literal built for an imported Azure rule. -/
def azRule (az : AzureRule) : Rule :=
  { name := az.name
    description := "Imported from Azure Drift"
    priority := az.priority
    direction := az.direction
    access := az.access
    protocol := az.protocol
    source_addr := az.source
    source_port := "*"
    dest_addr := az.destination
    dest_port := az.dest_port }

/-- One iteration of the drift loop: skip when the priority is already a key
of `merged_rules`, otherwise import and mark the priority used for the
direction selected by the `"IN" in direction.upper()` test. -/
def driftStep (st : MState) (az : AzureRule) : MState :=
  let is_inbound := hasSub "IN" (strUpper az.direction)
  if hasKey st.merged az.priority then st
  else
    { st with
      merged := setKey st.merged az.priority (azRule az)
      usedIn := if is_inbound then insert az.priority st.usedIn else st.usedIn
      usedOut := if is_inbound then st.usedOut else insert az.priority st.usedOut }

/-- The whole drift loop over the fetched Azure rules. -/
def driftStage (st : MState) (azs : List AzureRule) : MState := azs.foldl driftStep st

/-! ### Stage 3: client request merge (lines 286–321). -/

/-- The rule dictionary built for a client row once its priority `p` is
settled (lines 308–319). -/
def mkClientRule (segKey dir_short raw_dir : String) (p : Int) (row : Row) : Rule :=
  { name := stripNonAlnum segKey ++ "_" ++ dir_short ++ "_" ++
      api_map_get (strTrim (strUpper row.access)) "Allow" ++ toString p
    description := strTake 100 row.description
    priority := p
    direction := api_map_get raw_dir "Inbound"
    access := api_map_get (strTrim (strUpper row.access)) "Allow"
    protocol := api_map_get (strTrim (strUpper row.protocol)) "Tcp"
    source_addr := clean_ip row.source
    source_port := "*"
    dest_addr := clean_ip row.destination
    dest_port := clean_port row.dest_port }

/-- The no-explicit-priority path: run the allocator against the used set of
the short direction plus the keys of `merged_rules`, insert, advance the
counter, and mark the priority used. -/
def clientAlloc (segKey : String) (st : MState) (row : Row)
    (raw_dir dir_short : String) (is_inbound : Bool) : MState :=
  let target := if is_inbound then st.usedIn else st.usedOut
  let c0 := if is_inbound then st.cIn else st.cOut
  let p := allocFirst c0 (target ∪ keysF st.merged)
  let cNew := p + PRIORITY_STEP
  { merged := setKey st.merged p (mkClientRule segKey dir_short raw_dir p row)
    usedIn := if is_inbound then insert p st.usedIn else st.usedIn
    usedOut := if is_inbound then st.usedOut else insert p st.usedOut
    cIn := if is_inbound then cNew else st.cIn
    cOut := if is_inbound then st.cOut else cNew }

/-- One client row (lines 286–321).  `row.priority = some p` with `p ≠ 0`
models the truthy `if prio_val:` branch; a key collision skips the row
(`continue`), otherwise the rule is inserted at `p`.  A falsy parse result
(`none`, or the value `0`) goes through the allocator. -/
def clientStep (segKey : String) (st : MState) (row : Row) : MState :=
  let raw_dir := strTrim (strUpper row.direction)
  let dir_short := if hasSub "IN" raw_dir then "IN" else "OUT"
  let is_inbound := dir_short == "IN"
  match row.priority with
  | some p =>
    if p ≠ 0 then
      if hasKey st.merged p then st
      else
        { st with
          merged := setKey st.merged p (mkClientRule segKey dir_short raw_dir p row)
          usedIn := if is_inbound then insert p st.usedIn else st.usedIn
          usedOut := if is_inbound then st.usedOut else insert p st.usedOut }
    else clientAlloc segKey st row raw_dir dir_short is_inbound
  | none => clientAlloc segKey st row raw_dir dir_short is_inbound

/-- The client loop over the rows filtered for this segment. -/
def clientStage (segKey : String) (st : MState) (rows : List Row) : MState :=
  rows.foldl (clientStep segKey) st

/-- The merge pipeline restricted to seeding plus the client stage (no Azure
drift configured, no base rules), returning the final `merged_rules`. -/
def runClient (segKey : String) (existing : List Rule) (rows : List Row) :
    List (Int × Rule) :=
  (clientStage segKey (seedState existing) rows).merged

/-! ### The CIDR template resolver (`calculate_subnet_cidr` of
`azure_helper.py`), over IPv4 networks — the address family used by this
repository's data.  `ipaddress.ip_network` is embedded as a strict dotted-quad
parser (host bits below the prefix must be zero, leading zeros rejected). -/

/-- Split a character list on a separator (Python `str.split(c)`). -/
def splitOnCharList (sep : Char) : List Char → List (List Char)
  | [] => [[]]
  | x :: rest =>
    let r := splitOnCharList sep rest
    if x = sep then [] :: r
    else
      match r with
      | h :: t => (x :: h) :: t
      | [] => [[x]]

/-- Decimal value of a digit string; `none` on empty input, a non-digit, or a
leading zero (`_parse_octet` of `ipaddress` rejects leading zeros). -/
def digitsVal (l : List Char) : Option Nat :=
  if l = [] then none
  else if l.any (fun c => !c.isDigit) then none
  else if l.length > 1 && l.head? = some '0' then none
  else some (l.foldl (fun a c => a * 10 + (c.toNat - 48)) 0)

/-- Decimal value of a digit string with leading zeros allowed —
`_prefix_from_prefix_string` of `ipaddress` validates the prefix length with
`str.isdigit`, which accepts leading zeros (e.g. `016`). -/
def digitsValLZ (l : List Char) : Option Nat :=
  if l = [] then none
  else if l.any (fun c => !c.isDigit) then none
  else some (l.foldl (fun a c => a * 10 + (c.toNat - 48)) 0)

/-- One dotted-quad octet: a digit string valued at most 255. -/
def parseOctet (l : List Char) : Option Nat :=
  match digitsVal l with
  | some v => if v ≤ 255 then some v else none
  | none => none

/-- Parse `a.b.c.d` into its 32-bit numeric value. -/
def parseIPv4Addr (s : List Char) : Option Nat :=
  match (splitOnCharList '.' s).mapM parseOctet with
  | some [x, y, z, w] => some (((x * 256 + y) * 256 + z) * 256 + w)
  | _ => none

/-- An IPv4 network: numeric network address and mask length. -/
structure IPNet where
  addr : Nat
  plen : Nat
deriving DecidableEq, Repr

/-- Embeds `ipaddress.ip_network(s)` (strict: host bits below the mask must be
zero), restricted to the IPv4 dotted-quad `addr` / `addr/prefixlen` fragment —
the address family of this repository's data.  Octets reject leading zeros,
the prefix-length part accepts them (`str.isdigit`).  Strings outside this
fragment (IPv6, netmask suffixes such as `/255.255.0.0`) are outside the
model's domain: the theorems never treat a string this parser refuses as one
the program finds unparseable. -/
def parseIPv4Network (s : String) : Option IPNet :=
  match splitOnCharList '/' s.data with
  | [a] =>
    match parseIPv4Addr a with
    | some x => some ⟨x, 32⟩
    | none => none
  | [a, pl] =>
    match parseIPv4Addr a, digitsValLZ pl with
    | some x, some n =>
      if n ≤ 32 ∧ x % 2 ^ (32 - n) = 0 then some ⟨x, n⟩ else none
    | _, _ => none
  | _ => none

/-- Render a 32-bit value as a dotted quad. -/
def fmtIPv4 (x : Nat) : String :=
  toString (x / 16777216) ++ "." ++ toString (x / 65536 % 256) ++ "." ++
    toString (x / 256 % 256) ++ "." ++ toString (x % 256)

/-- Render a network as `a.b.c.d/len`, as `str(network)` does. -/
def fmtNet (nw : IPNet) : String := fmtIPv4 nw.addr ++ "/" ++ toString nw.plen

/-- Core of `calculate_subnet_cidr` over the parse result, mirroring
`list(network.subnets(new_prefix=plen+newbits))`: a network already at the
maximum mask length 32 yields itself — `subnets` returns the early generator
`yield self` BEFORE validating `new_prefix`, so the list is `[network]` and
only `netnum = 0` is in range; otherwise a new mask length above 32 raises
(caught by the bare `except`, giving the empty string), and in range the
`netnum`-th of the `2 ^ newbits` equal subdivisions is returned, the empty
string when `netnum` is out of range. -/
def calculate_subnet_cidr_net (onw : Option IPNet) (newbits netnum : Nat) : String :=
  match onw with
  | none => ""
  | some nw =>
    if nw.plen = 32 then
      if netnum = 0 then fmtNet nw else ""
    else
      let newLen := nw.plen + newbits
      if newLen ≤ 32 then
        if netnum < 2 ^ newbits then
          fmtNet ⟨nw.addr + netnum * 2 ^ (32 - newLen), newLen⟩
        else ""
      else ""

/-- Function `calculate_subnet_cidr(base_cidr, newbits, netnum)` of
`azure_helper.py`, on base strings in the parser's IPv4 fragment. -/
def calculate_subnet_cidr (base_cidr : String) (newbits netnum : Nat) : String :=
  calculate_subnet_cidr_net (parseIPv4Network base_cidr) newbits netnum

/-- The subnet-split parameters of one segment (`newbits`/`netnum` of the
`subnet_config` entry; a missing key defaults to 0 via `.get(…, 0)`). -/
structure SubnetConf where
  newbits : Nat
  netnum : Nat
deriving DecidableEq, Repr

/-- Lines 326–335 of `nsg_merger.py`: compute the segment's block, or fall
back to the sentinel `"ERROR_CIDR_CALC"` when the computation yields the empty
string (or no configuration entry exists). -/
def resolveCurrentCidr (vnet_cidr : String) (conf : Option SubnetConf) : String :=
  let c := match conf with
    | some sc => calculate_subnet_cidr vnet_cidr sc.newbits sc.netnum
    | none => ""
  if c = "" then "ERROR_CIDR_CALC" else c

/-! ### Stage 4: base (template) rules (lines 337–364). -/

/-- The rule dictionary built for a base row: like a client rule, but `source`
and `destination` get the two placeholder tokens replaced (first the
current-subnet token, then the VNet token) after `clean_ip`. -/
def mkBaseRule (segKey dir_short raw_dir current_cidr vnet_cidr : String)
    (p : Int) (row : Row) : Rule :=
  { name := stripNonAlnum segKey ++ "_" ++ dir_short ++ "_" ++
      api_map_get (strTrim (strUpper row.access)) "Allow" ++ toString p
    description := strTake 100 row.description
    priority := p
    direction := api_map_get raw_dir "Inbound"
    access := api_map_get (strTrim (strUpper row.access)) "Allow"
    protocol := api_map_get (strTrim (strUpper row.protocol)) "Tcp"
    source_addr := strReplace (strReplace (clean_ip row.source)
      "\x7b\x7bCurrentSubnet\x7d\x7d" current_cidr) "\x7b\x7bVNetCIDR\x7d\x7d" vnet_cidr
    source_port := "*"
    dest_addr := strReplace (strReplace (clean_ip row.destination)
      "\x7b\x7bCurrentSubnet\x7d\x7d" current_cidr) "\x7b\x7bVNetCIDR\x7d\x7d" vnet_cidr
    dest_port := clean_port row.dest_port }

/-- One base row: a failed priority parse skips the row, otherwise the rule is
written at its priority unconditionally (overwrite mode); the used sets and
counters are not touched by this stage. -/
def baseStep (segKey current_cidr vnet_cidr : String) (st : MState) (row : Row) :
    MState :=
  let raw_dir := strTrim (strUpper row.direction)
  let dir_short := if hasSub "IN" raw_dir then "IN" else "OUT"
  match row.priority with
  | none => st
  | some p =>
    { st with
      merged := setKey st.merged p
        (mkBaseRule segKey dir_short raw_dir current_cidr vnet_cidr p row) }

/-- The base-rule loop. -/
def baseStage (segKey current_cidr vnet_cidr : String) (st : MState)
    (rows : List Row) : MState :=
  rows.foldl (baseStep segKey current_cidr vnet_cidr) st

/-! ### The serializer's ordering (lines 366–371): sort the dict values by the
key `(0 if "in" in direction.lower() else 1, priority)`. -/

/-- The direction component of the sort key. -/
def dirIdx (r : Rule) : Nat := if hasSub "in" (strLower r.direction) then 0 else 1

/-- The full sort key.  (Every rule of the model carries a `priority`, so the
`r.get("priority", 99999)` default is never consulted.) -/
def sortKey (r : Rule) : Nat × Int := (dirIdx r, r.priority)

/-- The order induced by the sort key: direction index first, then priority. -/
def keyLE (a b : Nat × Int) : Prop := a.1 < b.1 ∨ (a.1 = b.1 ∧ a.2 ≤ b.2)

instance : DecidableRel keyLE := fun a b => by
  unfold keyLE; infer_instance

/-- Ordered insertion for the serializer's sort. -/
def insOrd (x : Rule) : List Rule → List Rule
  | [] => [x]
  | y :: rest => if keyLE (sortKey x) (sortKey y) then x :: y :: rest else y :: insOrd x rest

/-- Embeds `final_list.sort(key=…)` — insertion sort by the serializer's key (the
keys occurring in a merged map are pairwise distinct, so any stable or
unstable sort agrees with this one). -/
def sortRules (l : List Rule) : List Rule := l.foldr insOrd []

/-- The serialized order of a merged map: its values, sorted. -/
def serializeList (m : List (Int × Rule)) : List Rule := sortRules (m.map Prod.snd)

/-! ### Structural invariants of a merged map. -/

/-- Every key of the mapping equals the `priority` field of its rule. -/
def KeysMatch (m : List (Int × Rule)) : Prop := ∀ pr ∈ m, pr.2.priority = pr.1

/-- The keys of the mapping are pairwise distinct (a Python dict). -/
def NodupKeys (m : List (Int × Rule)) : Prop := (m.map Prod.fst).Nodup

/-! ### Concrete instances used by counterexamples and witnesses. -/

/-- A requested-change row with no explicit priority. -/
def reqNoPrio : Row :=
  { direction := "Inbound", priority := none, access := "Allow", protocol := "TCP"
    source := "*", destination := "*", dest_port := "80", description := "web" }

/-- A requested-change row with explicit priority 500. -/
def reqPrio500 : Row :=
  { direction := "Inbound", priority := some 500, access := "Allow", protocol := "TCP"
    source := "*", destination := "*", dest_port := "80", description := "web" }

/-- An existing user-band Inbound rule at priority 1010. -/
def exInbound1010 : Rule :=
  { name := "keep1010", description := "existing", priority := 1010
    direction := "Inbound", access := "Allow", protocol := "Tcp"
    source_addr := "*", source_port := "*", dest_addr := "*", dest_port := "443" }

/-- The existing rule of the spec's conflict example: priority 1000, Allow,
Tcp, `*` → `*`, port 80, Inbound. -/
def exInbound1000 : Rule :=
  { name := "web1000", description := "existing web", priority := 1000
    direction := "Inbound", access := "Allow", protocol := "Tcp"
    source_addr := "*", source_port := "*", dest_addr := "*", dest_port := "80" }

/-- A request colliding with `exInbound1000` on priority but not on content
(port 443 instead of 80). -/
def reqConflict1000 : Row :=
  { direction := "Inbound", priority := some 1000, access := "Allow", protocol := "TCP"
    source := "*", destination := "*", dest_port := "443", description := "tls" }

/-- A request identical in content to `exInbound1000` at the same priority. -/
def reqIdentical1000 : Row :=
  { direction := "Inbound", priority := some 1000, access := "Allow", protocol := "TCP"
    source := "*", destination := "*", dest_port := "80", description := "web" }

/-- An existing Inbound rule at priority 500 (for the cross-direction
collision instance). -/
def exInbound500 : Rule :=
  { name := "in500", description := "existing", priority := 500
    direction := "Inbound", access := "Allow", protocol := "Tcp"
    source_addr := "*", source_port := "*", dest_addr := "*", dest_port := "22" }

/-- An Outbound request carrying explicit priority 500. -/
def reqOutbound500 : Row :=
  { direction := "Outbound", priority := some 500, access := "Allow", protocol := "TCP"
    source := "*", destination := "*", dest_port := "53", description := "dns" }

/-- An Azure rule (drift) at priority 1050. -/
def azDrift1050 : AzureRule :=
  { name := "drift1", priority := 1050, direction := "Inbound", access := "Allow"
    protocol := "Tcp", source := "*", destination := "*", dest_port := "22" }

/-- An Azure rule whose priority 1000 collides with `exInbound1000` but whose
content differs everywhere (drift skip is content-blind). -/
def azDup1000 : AzureRule :=
  { name := "dup", priority := 1000, direction := "Inbound", access := "Deny"
    protocol := "Udp", source := "1.1.1.1", destination := "*", dest_port := "53" }

/-- An existing rule at priority 4000, to be overwritten by a template rule. -/
def exRule4000 : Rule :=
  { name := "old4000", description := "old", priority := 4000
    direction := "Inbound", access := "Deny", protocol := "Udp"
    source_addr := "1.2.3.4", source_port := "*", dest_addr := "*", dest_port := "161" }

/-- A base (template) rule row at priority 4000 whose destination carries the
current-subnet placeholder. -/
def baseRow4000 : Row :=
  { direction := "Inbound", priority := some 4000, access := "Allow", protocol := "TCP"
    source := "10.10.10.10", destination := "\x7b\x7bCurrentSubnet\x7d\x7d"
    dest_port := "443", description := "Base Rule" }

/-- A base rule row whose priority cell does not parse. -/
def baseRowNoPrio : Row :=
  { direction := "Inbound", priority := none, access := "Allow", protocol := "TCP"
    source := "*", destination := "*", dest_port := "443", description := "Base Rule" }

/-- A requested row whose Direction cell is `TCP`: it lacks the substring
`IN` and is neither `INBOUND` nor `OUTBOUND`, yet is an `api_map` key. -/
def reqDirTcp : Row :=
  { direction := "TCP", priority := none, access := "Allow", protocol := "TCP"
    source := "*", destination := "*", dest_port := "80", description := "odd" }

/-- A requested row whose Direction cell is `out`. -/
def reqDirOut : Row :=
  { direction := "out", priority := none, access := "Allow", protocol := "TCP"
    source := "*", destination := "*", dest_port := "80", description := "egress" }

/-- An Outbound rule at priority 500 (serialization-order instance). -/
def outR500 : Rule :=
  { name := "o500", description := "", priority := 500
    direction := "Outbound", access := "Allow", protocol := "Tcp"
    source_addr := "*", source_port := "*", dest_addr := "*", dest_port := "53" }

/-- An Inbound rule at priority 9000 (serialization-order instance). -/
def inR9000 : Rule :=
  { name := "i9000", description := "", priority := 9000
    direction := "Inbound", access := "Allow", protocol := "Tcp"
    source_addr := "*", source_port := "*", dest_addr := "*", dest_port := "80" }

/-- The freshly seeded state of a segment with no existing file. -/
def stEmpty : MState := seedState []

/-! ## Helper lemmas: the dict operations. -/

theorem lookup_setKey_self (m : List (Int × Rule)) (p : Int) (r : Rule) :
    lookupKey (setKey m p r) p = some r := by
  induction m with
  | nil => simp [setKey, lookupKey]
  | cons hd tl ih =>
    obtain ⟨q, s⟩ := hd
    by_cases h : q = p
    · simp [setKey, lookupKey, h]
    · simp [setKey, lookupKey, h, ih]

theorem lookup_setKey_ne (m : List (Int × Rule)) (p q : Int) (r : Rule)
    (h : q ≠ p) : lookupKey (setKey m p r) q = lookupKey m q := by
  have hpq : p ≠ q := fun hh => h hh.symm
  induction m with
  | nil =>
    simp only [setKey, lookupKey]
    rw [if_neg hpq]
  | cons hd tl ih =>
    obtain ⟨a, s⟩ := hd
    simp only [setKey]
    by_cases ha : a = p
    · subst ha
      simp only [if_pos rfl, lookupKey]
      rw [if_neg hpq, if_neg hpq]
    · simp only [if_neg ha, lookupKey]
      by_cases hq : a = q
      · rw [if_pos hq, if_pos hq]
      · rw [if_neg hq, if_neg hq]
        exact ih

theorem hasKey_setKey_self (m : List (Int × Rule)) (p : Int) (r : Rule) :
    hasKey (setKey m p r) p = true := by
  simp [hasKey, lookup_setKey_self]

theorem hasKey_setKey_mono (m : List (Int × Rule)) (p q : Int) (r : Rule)
    (h : hasKey m q = true) : hasKey (setKey m p r) q = true := by
  by_cases hq : q = p
  · subst hq; exact hasKey_setKey_self m q r
  · simpa [hasKey, lookup_setKey_ne m p q r hq] using h

theorem mem_keysF_iff (m : List (Int × Rule)) (p : Int) :
    p ∈ keysF m ↔ hasKey m p = true := by
  induction m with
  | nil => simp [keysF, hasKey, lookupKey]
  | cons hd tl ih =>
    obtain ⟨q, s⟩ := hd
    by_cases h : q = p
    · subst h; simp [keysF, hasKey, lookupKey]
    · simp only [keysF, hasKey, lookupKey, List.map_cons, List.toFinset_cons,
        Finset.mem_insert, if_neg h]
      constructor
      · rintro (hh | hh)
        · exact absurd hh.symm h
        · exact (ih).mp (by simpa [keysF] using hh)
      · intro hh
        exact Or.inr (by simpa [keysF] using (ih).mpr hh)

/-- On an absent key, a dict write is an append. -/
theorem setKey_of_not_hasKey (m : List (Int × Rule)) (p : Int) (r : Rule)
    (h : hasKey m p = false) : setKey m p r = m ++ [(p, r)] := by
  induction m with
  | nil => simp [setKey]
  | cons hd tl ih =>
    obtain ⟨q, s⟩ := hd
    by_cases hq : q = p
    · simp [hasKey, lookupKey, hq] at h
    · simp only [hasKey, lookupKey, if_neg hq] at h
      simp [setKey, hq, ih h]

/-! ## Helper lemmas: the priority allocator. -/

theorem priority_step_pos : (0 : Int) < PRIORITY_STEP := by decide

theorem scanFree_ge (bad : Finset Int) :
    ∀ (f : Nat) (c : Int), c ≤ scanFree bad f c := by
  intro f
  induction f with
  | zero => intro c; simp [scanFree]
  | succ g ih =>
    intro c
    by_cases h : c ∈ bad
    · calc c ≤ c + PRIORITY_STEP := by
            have := priority_step_pos; omega
        _ ≤ scanFree bad g (c + PRIORITY_STEP) := ih _
        _ = scanFree bad (g + 1) c := by simp [scanFree, h]
    · simp [scanFree, h]

theorem scanFree_grid (bad : Finset Int) :
    ∀ (f : Nat) (c : Int) (j : Nat),
      c + PRIORITY_STEP * (j : Int) < scanFree bad f c →
      c + PRIORITY_STEP * (j : Int) ∈ bad := by
  intro f
  induction f with
  | zero =>
    intro c j h
    simp only [scanFree] at h
    have : (0 : Int) ≤ PRIORITY_STEP * (j : Int) :=
      mul_nonneg (by decide) (Int.natCast_nonneg j)
    omega
  | succ g ih =>
    intro c j h
    by_cases hc : c ∈ bad
    · simp only [scanFree, if_pos hc] at h
      match j with
      | 0 => simpa using hc
      | Nat.succ k =>
        have hk : (c + PRIORITY_STEP) + PRIORITY_STEP * (k : Int) ∈ bad := by
          apply ih
          have : c + PRIORITY_STEP * ((k : Int) + 1) =
              (c + PRIORITY_STEP) + PRIORITY_STEP * (k : Int) := by ring
          rw [← this]
          simpa [Nat.cast_succ] using h
        have : c + PRIORITY_STEP * (((k : Nat) + 1 : Nat) : Int) =
            (c + PRIORITY_STEP) + PRIORITY_STEP * (k : Int) := by
          push_cast; ring
        rw [this]
        exact hk
    · simp only [scanFree, if_neg hc] at h
      have : (0 : Int) ≤ PRIORITY_STEP * (j : Int) :=
        mul_nonneg (by decide) (Int.natCast_nonneg j)
      omega

theorem scanFree_not_mem (bad : Finset Int) :
    ∀ (f : Nat) (c : Int),
      (bad.filter (fun x => c ≤ x)).card < f → scanFree bad f c ∉ bad := by
  intro f
  induction f with
  | zero => intro c h; omega
  | succ g ih =>
    intro c h
    by_cases hc : c ∈ bad
    · simp only [scanFree, if_pos hc]
      apply ih
      have hsub : insert c (bad.filter (fun x => c + PRIORITY_STEP ≤ x)) ⊆
          bad.filter (fun x => c ≤ x) := by
        intro x hx
        rcases Finset.mem_insert.mp hx with hx | hx
        · subst hx
          exact Finset.mem_filter.mpr ⟨hc, le_refl _⟩
        · rcases Finset.mem_filter.mp hx with ⟨hxb, hxle⟩
          refine Finset.mem_filter.mpr ⟨hxb, ?_⟩
          have := priority_step_pos; omega
      have hnotmem : c ∉ bad.filter (fun x => c + PRIORITY_STEP ≤ x) := by
        intro hmem
        rcases Finset.mem_filter.mp hmem with ⟨_, hle⟩
        have := priority_step_pos; omega
      have hcard := Finset.card_le_card hsub
      rw [Finset.card_insert_of_not_mem hnotmem] at hcard
      omega
    · simp only [scanFree, if_neg hc]
      exact hc

theorem allocFirst_not_mem (c : Int) (bad : Finset Int) :
    allocFirst c bad ∉ bad := by
  apply scanFree_not_mem
  have := Finset.card_filter_le bad (fun x => c ≤ x)
  omega

theorem allocFirst_ge (c : Int) (bad : Finset Int) : c ≤ allocFirst c bad :=
  scanFree_ge bad _ c

theorem allocFirst_grid (c : Int) (bad : Finset Int) (j : Nat)
    (h : c + PRIORITY_STEP * (j : Int) < allocFirst c bad) :
    c + PRIORITY_STEP * (j : Int) ∈ bad :=
  scanFree_grid bad _ c j h

/-! ## Helper lemmas: structural invariants through the stages. -/

theorem hasKey_append (m1 m2 : List (Int × Rule)) (q : Int) :
    hasKey (m1 ++ m2) q = (hasKey m1 q || hasKey m2 q) := by
  induction m1 with
  | nil => simp [hasKey, lookupKey]
  | cons hd tl ih =>
    obtain ⟨a, s⟩ := hd
    by_cases h : a = q
    · simp [hasKey, lookupKey, h]
    · simp only [hasKey, lookupKey, List.cons_append, if_neg h] at ih ⊢
      exact ih

theorem keysMatch_setKey (m : List (Int × Rule)) (p : Int) (r : Rule)
    (hm : KeysMatch m) (hr : r.priority = p) : KeysMatch (setKey m p r) := by
  induction m with
  | nil =>
    intro pr hpr
    simp only [setKey, List.mem_singleton] at hpr
    subst hpr; exact hr
  | cons hd tl ih =>
    obtain ⟨a, s⟩ := hd
    have hs : s.priority = a := hm (a, s) (List.mem_cons_self _ _)
    have htl : KeysMatch tl := fun pr hpr => hm pr (List.mem_cons_of_mem _ hpr)
    by_cases h : a = p
    · intro pr hpr
      simp only [setKey, if_pos h] at hpr
      rcases List.mem_cons.mp hpr with hpr | hpr
      · subst hpr; exact hr
      · exact htl pr hpr
    · intro pr hpr
      simp only [setKey, if_neg h] at hpr
      rcases List.mem_cons.mp hpr with hpr | hpr
      · subst hpr; exact hs
      · exact ih htl pr hpr

theorem mem_map_fst_setKey (m : List (Int × Rule)) (p q : Int) (r : Rule) :
    q ∈ (setKey m p r).map Prod.fst ↔ q = p ∨ q ∈ m.map Prod.fst := by
  induction m with
  | nil => simp [setKey]
  | cons hd tl ih =>
    obtain ⟨a, s⟩ := hd
    by_cases h : a = p
    · subst h; simp [setKey]
    · simp only [setKey, if_neg h, List.map_cons, List.mem_cons, ih]
      tauto

theorem nodupKeys_setKey (m : List (Int × Rule)) (p : Int) (r : Rule)
    (hm : NodupKeys m) : NodupKeys (setKey m p r) := by
  induction m with
  | nil => simp [NodupKeys, setKey]
  | cons hd tl ih =>
    obtain ⟨a, s⟩ := hd
    have htl : NodupKeys tl := (List.nodup_cons.mp hm).2
    have hna : a ∉ tl.map Prod.fst := (List.nodup_cons.mp hm).1
    by_cases h : a = p
    · subst h
      simpa [NodupKeys, setKey] using hm
    · simp only [NodupKeys, setKey, if_neg h, List.map_cons, List.nodup_cons]
      refine ⟨?_, ih htl⟩
      intro hmem
      rcases (mem_map_fst_setKey tl p a r).mp hmem with hh | hh
      · exact h hh
      · exact hna hh

theorem keysMatch_seed_fold (ex : List Rule) :
    ∀ acc, KeysMatch acc →
      KeysMatch (ex.foldl (fun m r => setKey m r.priority r) acc) := by
  induction ex with
  | nil => intro acc h; simpa using h
  | cons r rest ih =>
    intro acc h
    exact ih _ (keysMatch_setKey acc r.priority r h rfl)

theorem nodupKeys_seed_fold (ex : List Rule) :
    ∀ acc, NodupKeys acc →
      NodupKeys (ex.foldl (fun m r => setKey m r.priority r) acc) := by
  induction ex with
  | nil => intro acc h; simpa using h
  | cons r rest ih =>
    intro acc h
    exact ih _ (nodupKeys_setKey acc r.priority r h)

theorem keysMatch_seedMerged (ex : List Rule) : KeysMatch (seedMerged ex) :=
  keysMatch_seed_fold ex [] (by intro pr hpr; simp at hpr)

theorem nodupKeys_seedMerged (ex : List Rule) : NodupKeys (seedMerged ex) :=
  nodupKeys_seed_fold ex [] (by simp [NodupKeys])

/-- Seeding the dict from the value list of a well-formed map rebuilds the
map itself. -/
theorem seed_fold_append (vs : List Rule) :
    ∀ acc, (∀ r ∈ vs, hasKey acc r.priority = false) →
      (vs.map Rule.priority).Nodup →
      vs.foldl (fun m r => setKey m r.priority r) acc =
        acc ++ vs.map (fun r => (r.priority, r)) := by
  induction vs with
  | nil => intro acc _ _; simp
  | cons r rest ih =>
    intro acc hfree hnd
    rw [List.map_cons] at hnd
    have hnd' := List.nodup_cons.mp hnd
    have hr : hasKey acc r.priority = false := hfree r (List.mem_cons_self _ _)
    have hstep : setKey acc r.priority r = acc ++ [(r.priority, r)] :=
      setKey_of_not_hasKey acc r.priority r hr
    simp only [List.foldl_cons, hstep]
    rw [ih (acc ++ [(r.priority, r)]) ?_ hnd'.2]
    · simp
    · intro r' hr'
      have hne : r'.priority ≠ r.priority := by
        intro he
        exact hnd'.1 (he ▸ List.mem_map_of_mem Rule.priority hr')
      rw [hasKey_append]
      have h1 : hasKey acc r'.priority = false := hfree r' (List.mem_cons_of_mem _ hr')
      have hne' : r.priority ≠ r'.priority := fun h => hne h.symm
      have h2 : hasKey [(r.priority, r)] r'.priority = false := by
        simp [hasKey, lookupKey, hne']
      rw [h1, h2]
      rfl

theorem seedState_merged (ex : List Rule) : (seedState ex).merged = seedMerged ex := rfl

theorem seedMerged_of_wf (m : List (Int × Rule)) (hkm : KeysMatch m)
    (hnd : NodupKeys m) : seedMerged (m.map Prod.snd) = m := by
  unfold seedMerged
  rw [seed_fold_append (m.map Prod.snd) [] (by intro r _; rfl) ?_]
  · have h1 : (m.map Prod.snd).map (fun r => (r.priority, r)) =
        m.map (fun pr => (pr.2.priority, pr.2)) := by
      rw [List.map_map]
      rfl
    rw [List.nil_append, h1]
    have h2 : ∀ pr ∈ m, (pr.2.priority, pr.2) = pr := by
      intro pr hpr
      have := hkm pr hpr
      rw [this]
    calc m.map (fun pr => (pr.2.priority, pr.2)) = m.map id := List.map_congr_left h2
      _ = m := List.map_id m
  · have h3 : (m.map Prod.snd).map Rule.priority = m.map Prod.fst := by
      rw [List.map_map]
      exact List.map_congr_left (fun pr hpr => hkm pr hpr)

    rw [h3]
    exact hnd

/-! ## Helper lemmas: the client stage. -/

theorem clientStep_skip (k : String) (st : MState) (row : Row) (p : Int)
    (hp : row.priority = some p) (h0 : p ≠ 0)
    (hk : hasKey st.merged p = true) : clientStep k st row = st := by
  unfold clientStep
  rw [hp]
  simp [h0, hk]

theorem clientAlloc_merged (k : String) (st : MState) (row : Row)
    (raw_dir dir_short : String) (is_inbound : Bool) :
    (clientAlloc k st row raw_dir dir_short is_inbound).merged =
      setKey st.merged
        (allocFirst (if is_inbound then st.cIn else st.cOut)
          ((if is_inbound then st.usedIn else st.usedOut) ∪ keysF st.merged))
        (mkClientRule k dir_short raw_dir
          (allocFirst (if is_inbound then st.cIn else st.cOut)
            ((if is_inbound then st.usedIn else st.usedOut) ∪ keysF st.merged)) row) := rfl

theorem hasKey_clientStep_mono (k : String) (st : MState) (row : Row) (q : Int)
    (h : hasKey st.merged q = true) :
    hasKey (clientStep k st row).merged q = true := by
  unfold clientStep
  cases hp : row.priority with
  | none =>
    rw [clientAlloc_merged]
    exact hasKey_setKey_mono _ _ _ _ h
  | some p =>
    simp only []
    by_cases h0 : p ≠ 0
    · rw [if_pos h0]
      by_cases hk : hasKey st.merged p = true
      · rw [if_pos hk]
        exact h
      · rw [if_neg hk]
        exact hasKey_setKey_mono _ _ _ _ h
    · rw [if_neg h0, clientAlloc_merged]
      exact hasKey_setKey_mono _ _ _ _ h

theorem hasKey_clientStage_mono (k : String) (rows : List Row) :
    ∀ (st : MState) (q : Int), hasKey st.merged q = true →
      hasKey (clientStage k st rows).merged q = true := by
  induction rows with
  | nil => intro st q h; exact h
  | cons r rest ih =>
    intro st q h
    exact ih (clientStep k st r) q (hasKey_clientStep_mono k st r q h)

theorem clientStep_explicit_mem (k : String) (st : MState) (row : Row) (p : Int)
    (hp : row.priority = some p) (h0 : p ≠ 0) :
    hasKey (clientStep k st row).merged p = true := by
  by_cases hk : hasKey st.merged p = true
  · rw [clientStep_skip k st row p hp h0 hk]
    exact hk
  · unfold clientStep
    rw [hp]
    simp only []
    rw [if_pos h0, if_neg hk]
    exact hasKey_setKey_self _ _ _

theorem mem_after_clientStage (k : String) (rows : List Row) :
    ∀ (st : MState) (row : Row) (p : Int), row ∈ rows →
      row.priority = some p → p ≠ 0 →
      hasKey (clientStage k st rows).merged p = true := by
  induction rows with
  | nil => intro st row p h; simp at h
  | cons r rest ih =>
    intro st row p hmem hp h0
    rcases List.mem_cons.mp hmem with hmem | hmem
    · subst hmem
      exact hasKey_clientStage_mono k rest (clientStep k st row) p
        (clientStep_explicit_mem k st row p hp h0)
    · exact ih (clientStep k st r) row p hmem hp h0

theorem clientStage_fix (k : String) (rows : List Row) :
    ∀ st : MState,
      (∀ row ∈ rows, ∃ p : Int, row.priority = some p ∧ p ≠ 0 ∧
        hasKey st.merged p = true) →
      clientStage k st rows = st := by
  induction rows with
  | nil => intro st _; rfl
  | cons r rest ih =>
    intro st hall
    obtain ⟨p, hp, h0, hk⟩ := hall r (List.mem_cons_self _ _)
    have hstep : clientStep k st r = st := clientStep_skip k st r p hp h0 hk
    show clientStage k (clientStep k st r) rest = st
    rw [hstep]
    exact ih st (fun row hrow => hall row (List.mem_cons_of_mem _ hrow))

theorem keysMatch_clientStep (k : String) (st : MState) (row : Row)
    (h : KeysMatch st.merged) : KeysMatch (clientStep k st row).merged := by
  unfold clientStep
  cases hp : row.priority with
  | none =>
    rw [clientAlloc_merged]
    exact keysMatch_setKey _ _ _ h rfl
  | some p =>
    simp only []
    by_cases h0 : p ≠ 0
    · rw [if_pos h0]
      by_cases hk : hasKey st.merged p = true
      · rw [if_pos hk]
        exact h
      · rw [if_neg hk]
        exact keysMatch_setKey _ _ _ h rfl
    · rw [if_neg h0, clientAlloc_merged]
      exact keysMatch_setKey _ _ _ h rfl

theorem nodupKeys_clientStep (k : String) (st : MState) (row : Row)
    (h : NodupKeys st.merged) : NodupKeys (clientStep k st row).merged := by
  unfold clientStep
  cases hp : row.priority with
  | none =>
    rw [clientAlloc_merged]
    exact nodupKeys_setKey _ _ _ h
  | some p =>
    simp only []
    by_cases h0 : p ≠ 0
    · rw [if_pos h0]
      by_cases hk : hasKey st.merged p = true
      · rw [if_pos hk]
        exact h
      · rw [if_neg hk]
        exact nodupKeys_setKey _ _ _ h
    · rw [if_neg h0, clientAlloc_merged]
      exact nodupKeys_setKey _ _ _ h

theorem keysMatch_clientStage (k : String) (rows : List Row) :
    ∀ st : MState, KeysMatch st.merged →
      KeysMatch (clientStage k st rows).merged := by
  induction rows with
  | nil => intro st h; exact h
  | cons r rest ih =>
    intro st h
    exact ih (clientStep k st r) (keysMatch_clientStep k st r h)

theorem nodupKeys_clientStage (k : String) (rows : List Row) :
    ∀ st : MState, NodupKeys st.merged →
      NodupKeys (clientStage k st rows).merged := by
  induction rows with
  | nil => intro st h; exact h
  | cons r rest ih =>
    intro st h
    exact ih (clientStep k st r) (nodupKeys_clientStep k st r h)

theorem keysMatch_runClient (k : String) (ex : List Rule) (rows : List Row) :
    KeysMatch (runClient k ex rows) :=
  keysMatch_clientStage k rows (seedState ex)
    (by rw [seedState_merged]; exact keysMatch_seedMerged ex)

theorem nodupKeys_runClient (k : String) (ex : List Rule) (rows : List Row) :
    NodupKeys (runClient k ex rows) :=
  nodupKeys_clientStage k rows (seedState ex)
    (by rw [seedState_merged]; exact nodupKeys_seedMerged ex)

/-! ## Claim theorems. -/

/-- C1, counterexample: re-running the merge engine on its own output with the
same request rows is NOT idempotent when a row carries no explicit priority —
the second run auto-allocates a fresh priority for that row again and inserts
a duplicate rule, so the final RuleSets differ. -/
theorem c1_counterexample :
    runClient "App" ((runClient "App" [] [reqNoPrio]).map Prod.snd) [reqNoPrio] ≠
      runClient "App" [] [reqNoPrio] := by decide

/-- C1, amended: when every requested row carries an explicit non-zero
priority, re-running the merge engine with the first run's final RuleSet as
the existing RuleSet and the same rows produces the identical final RuleSet
(no duplicate insertion, no priority drift); rows without an explicit
priority are re-allocated fresh priorities on the second run. -/
theorem c1_idempotent_explicit (segKey : String) (existing : List Rule)
    (rows : List Row)
    (hall : ∀ row ∈ rows, ∃ p : Int, row.priority = some p ∧ p ≠ 0) :
    runClient segKey ((runClient segKey existing rows).map Prod.snd) rows =
      runClient segKey existing rows := by
  have hkm := keysMatch_runClient segKey existing rows
  have hnd := nodupKeys_runClient segKey existing rows
  have hseed : (seedState ((runClient segKey existing rows).map Prod.snd)).merged =
      runClient segKey existing rows := by
    rw [seedState_merged]
    exact seedMerged_of_wf _ hkm hnd
  have hcond : ∀ row ∈ rows, ∃ p : Int, row.priority = some p ∧ p ≠ 0 ∧
      hasKey (seedState ((runClient segKey existing rows).map Prod.snd)).merged p =
        true := by
    intro row hrow
    obtain ⟨p, hp, h0⟩ := hall row hrow
    refine ⟨p, hp, h0, ?_⟩
    rw [hseed]
    exact mem_after_clientStage segKey rows (seedState existing) row p hrow hp h0
  have hfix := clientStage_fix segKey rows _ hcond
  show (clientStage segKey
      (seedState ((runClient segKey existing rows).map Prod.snd)) rows).merged =
    runClient segKey existing rows
  rw [hfix, hseed]

/-- C1, witness for the amended theorem: one explicit-priority row, run
twice, lands on the same final RuleSet. -/
theorem c1_idempotent_explicit_witness :
    (reqPrio500.priority = some 500 ∧ (500 : Int) ≠ 0) ∧
    runClient "App" ((runClient "App" [] [reqPrio500]).map Prod.snd) [reqPrio500] =
      runClient "App" [] [reqPrio500] :=
  ⟨⟨rfl, by decide⟩,
    c1_idempotent_explicit "App" [] [reqPrio500] (by
      intro row hrow
      rw [List.mem_singleton] at hrow
      subst hrow
      exact ⟨500, rfl, by decide⟩)⟩

/-- C2, counterexample: the per-direction counters are NOT seeded from the
highest priority in the user band.  With an existing Inbound rule at 1010
(inside the band `[1000, 2000)`), the first auto-allocated Inbound priority is
1000, which is not strictly above 1010. -/
theorem c2_counterexample :
    (hasSub "IN" (strUpper exInbound1010.direction) = true ∧
      (1000 : Int) ≤ exInbound1010.priority ∧ exInbound1010.priority < 2000) ∧
    hasKey (seedMerged [exInbound1010]) 1000 = false ∧
    lookupKey (runClient "App" [exInbound1010] [reqNoPrio]) 1000 =
      some (mkClientRule "App" "IN" "INBOUND" 1000 reqNoPrio) ∧
    ¬ (exInbound1010.priority < 1000) := by decide

/-- C2, amended: both per-direction counters are initialised to the constant
`START_PRIORITY = 1000` (not seeded from the existing band maximum); each
allocation returns the first value of the progression
`counter, counter+10, …` that is neither in the direction's used set nor a
key of the RuleSet — so an existing priority (inside or outside the band) is
never reused, but the allocated value need not exceed existing band
priorities. -/
theorem c2_allocator_amended :
    (∀ ex : List Rule,
      (seedState ex).cIn = START_PRIORITY ∧ (seedState ex).cOut = START_PRIORITY) ∧
    (∀ (c : Int) (bad : Finset Int),
      c ≤ allocFirst c bad ∧ allocFirst c bad ∉ bad ∧
      ∀ j : Nat, c + PRIORITY_STEP * (j : Int) < allocFirst c bad →
        c + PRIORITY_STEP * (j : Int) ∈ bad) :=
  ⟨fun _ => ⟨rfl, rfl⟩,
    fun c bad => ⟨allocFirst_ge c bad, allocFirst_not_mem c bad,
      fun j h => allocFirst_grid c bad j h⟩⟩

/-- C2, witness for the amended theorem: from counter 1000 with 1000 already
used, the allocator's minimality clause reports 1000 as used. -/
theorem c2_allocator_amended_witness :
    ((1000 : Int) + PRIORITY_STEP * ((0 : Nat) : Int) <
      allocFirst 1000 ({1000} : Finset Int)) ∧
    (1000 : Int) + PRIORITY_STEP * ((0 : Nat) : Int) ∈ ({1000} : Finset Int) :=
  ⟨by decide, (c2_allocator_amended.2 1000 {1000}).2.2 0 (by decide)⟩

/-- C3: a requested row with an explicit non-zero priority already present in
the segment's RuleSet changes nothing — the whole merge state is left intact,
so nothing is inserted, the rule already at that priority survives unchanged,
and no reassignment happens (strict/safe conflict policy); this holds whether
or not the request is field-for-field identical to the existing rule. -/
theorem c3_explicit_conflict_noop (segKey : String) (st : MState) (row : Row)
    (p : Int) (hp : row.priority = some p) (hpos : 0 < p)
    (hk : hasKey st.merged p = true) :
    clientStep segKey st row = st ∧
    lookupKey (clientStep segKey st row).merged p = lookupKey st.merged p := by
  have h0 : p ≠ 0 := by omega
  have h := clientStep_skip segKey st row p hp h0 hk
  exact ⟨h, by rw [h]⟩

/-- C3, witness: both the identical request and the port-443 conflicting
request at priority 1000 leave the state seeded from the spec's example rule
untouched, and exactly the original rule remains at priority 1000. -/
theorem c3_explicit_conflict_noop_witness :
    (reqIdentical1000.priority = some 1000 ∧ (0 : Int) < 1000 ∧
      hasKey (seedState [exInbound1000]).merged 1000 = true ∧
      clientStep "App" (seedState [exInbound1000]) reqIdentical1000 =
        seedState [exInbound1000]) ∧
    (clientStep "App" (seedState [exInbound1000]) reqConflict1000 =
        seedState [exInbound1000] ∧
      lookupKey (clientStep "App" (seedState [exInbound1000]) reqConflict1000).merged
        1000 = some exInbound1000) := by
  refine ⟨⟨rfl, by decide, by decide, ?_⟩, ?_, ?_⟩
  · exact (c3_explicit_conflict_noop "App" (seedState [exInbound1000])
      reqIdentical1000 1000 rfl (by decide) (by decide)).1
  · exact (c3_explicit_conflict_noop "App" (seedState [exInbound1000])
      reqConflict1000 1000 rfl (by decide) (by decide)).1
  · have h := (c3_explicit_conflict_noop "App" (seedState [exInbound1000])
      reqConflict1000 1000 rfl (by decide) (by decide)).2
    rw [h]
    decide

/-- C6: the merged mapping is keyed by the bare priority integer, so it can
never hold two rules at one priority; concretely, an Outbound request at
priority 500 colliding with an existing Inbound rule at 500 is silently
dropped and the final RuleSet holds only the Inbound rule. -/
theorem c6_priority_keyed_collision :
    (∀ (m : List (Int × Rule)) (p : Int) (r r' : Rule),
      lookupKey m p = some r → lookupKey m p = some r' → r = r') ∧
    runClient "App" [exInbound500] [reqOutbound500] = [(500, exInbound500)] ∧
    strTrim (strUpper reqOutbound500.direction) = "OUTBOUND" ∧
    exInbound500.direction = "Inbound" := by
  refine ⟨?_, by decide, by decide, rfl⟩
  intro m p r r' h1 h2
  rw [h1] at h2
  exact Option.some.inj h2

/-- C6, witness: the at-most-one-rule-per-priority clause applied at a
concrete mapping. -/
theorem c6_priority_keyed_collision_witness :
    lookupKey [((500 : Int), exInbound500)] 500 = some exInbound500 ∧
    exInbound500 = exInbound500 :=
  ⟨by decide,
    c6_priority_keyed_collision.1 [(500, exInbound500)] 500 exInbound500 exInbound500
      (by decide) (by decide)⟩

/-- C7: drift import per fetched rule — if the rule's priority is already a
key of the current RuleSet the whole state is unchanged (no content diffing);
otherwise the rule is inserted with description `Imported from Azure Drift`
and its priority is added to the used set of the direction chosen by the
`"IN" in direction.upper()` test. -/
theorem c7_drift_import (st : MState) (az : AzureRule) :
    (hasKey st.merged az.priority = true → driftStep st az = st) ∧
    (hasKey st.merged az.priority = false →
      (driftStep st az).merged = setKey st.merged az.priority (azRule az) ∧
      (azRule az).description = "Imported from Azure Drift" ∧
      (hasSub "IN" (strUpper az.direction) = true →
        (driftStep st az).usedIn = insert az.priority st.usedIn ∧
        (driftStep st az).usedOut = st.usedOut) ∧
      (hasSub "IN" (strUpper az.direction) = false →
        (driftStep st az).usedOut = insert az.priority st.usedOut ∧
        (driftStep st az).usedIn = st.usedIn)) := by
  constructor
  · intro h
    unfold driftStep
    rw [if_pos h]
  · intro h
    have h' : ¬ (hasKey st.merged az.priority = true) := by rw [h]; exact Bool.false_ne_true
    refine ⟨?_, rfl, ?_, ?_⟩
    · unfold driftStep
      rw [if_neg h']
    · intro hin
      unfold driftStep
      rw [if_neg h']
      constructor <;> simp [hin]
    · intro hin
      unfold driftStep
      rw [if_neg h']
      constructor <;> simp [hin]

/-- C7, witness: a colliding Azure rule (priority 1000, different content) is
skipped wholesale; a fresh one (priority 1050) is imported. -/
theorem c7_drift_import_witness :
    (hasKey (seedState [exInbound1000]).merged azDup1000.priority = true ∧
      driftStep (seedState [exInbound1000]) azDup1000 = seedState [exInbound1000]) ∧
    (hasKey (seedState [exInbound1000]).merged azDrift1050.priority = false ∧
      (driftStep (seedState [exInbound1000]) azDrift1050).merged =
        setKey (seedState [exInbound1000]).merged azDrift1050.priority
          (azRule azDrift1050)) := by
  refine ⟨⟨by decide, (c7_drift_import (seedState [exInbound1000]) azDup1000).1
    (by decide)⟩, ⟨by decide, ?_⟩⟩
  exact ((c7_drift_import (seedState [exInbound1000]) azDrift1050).2 (by decide)).1

/-- C4: a base (template) rule with a parsed priority `p` is inserted at `p`
with the two placeholders in source/destination replaced by the segment's
resolved block and the VNet block, overwriting whatever rule was at `p`;
other priorities are untouched, and a row whose priority does not parse
leaves the state unchanged (skipped for that row only). -/
theorem c4_template_overwrite (segKey vnet : String) (conf : Option SubnetConf)
    (st : MState) (row : Row) :
    (row.priority = none →
      baseStep segKey (resolveCurrentCidr vnet conf) vnet st row = st) ∧
    (∀ p : Int, row.priority = some p →
      lookupKey (baseStep segKey (resolveCurrentCidr vnet conf) vnet st row).merged p =
        some (mkBaseRule segKey
          (if hasSub "IN" (strTrim (strUpper row.direction)) = true then "IN" else "OUT")
          (strTrim (strUpper row.direction)) (resolveCurrentCidr vnet conf) vnet p row) ∧
      (∀ q : Int, q ≠ p →
        lookupKey (baseStep segKey (resolveCurrentCidr vnet conf) vnet st row).merged q =
          lookupKey st.merged q) ∧
      (baseStep segKey (resolveCurrentCidr vnet conf) vnet st row).usedIn = st.usedIn ∧
      (baseStep segKey (resolveCurrentCidr vnet conf) vnet st row).usedOut = st.usedOut) := by
  constructor
  · intro hp
    unfold baseStep
    rw [hp]
  · intro p hp
    unfold baseStep
    rw [hp]
    exact ⟨lookup_setKey_self _ _ _, fun q hq => lookup_setKey_ne _ _ _ _ hq, rfl, rfl⟩

/-- C4, witness: the spec's template-overwrite example — an existing rule at
4000 is replaced by the template rule, whose current-subnet placeholder
becomes the resolved block `10.0.1.0/24`; a priority-less template row is
skipped. -/
theorem c4_template_overwrite_witness :
    (baseRowNoPrio.priority = none ∧
      baseStep "App" (resolveCurrentCidr "10.0.0.0/16" (some ⟨8, 1⟩)) "10.0.0.0/16"
        (seedState [exRule4000]) baseRowNoPrio = seedState [exRule4000]) ∧
    (baseRow4000.priority = some 4000 ∧
      lookupKey (seedState [exRule4000]).merged 4000 = some exRule4000 ∧
      lookupKey (baseStep "App" (resolveCurrentCidr "10.0.0.0/16" (some ⟨8, 1⟩))
          "10.0.0.0/16" (seedState [exRule4000]) baseRow4000).merged 4000 =
        some (mkBaseRule "App" "IN" "INBOUND" (resolveCurrentCidr "10.0.0.0/16"
          (some ⟨8, 1⟩)) "10.0.0.0/16" 4000 baseRow4000) ∧
      resolveCurrentCidr "10.0.0.0/16" (some ⟨8, 1⟩) = "10.0.1.0/24" ∧
      (mkBaseRule "App" "IN" "INBOUND" (resolveCurrentCidr "10.0.0.0/16" (some ⟨8, 1⟩))
        "10.0.0.0/16" 4000 baseRow4000).dest_addr = "10.0.1.0/24" ∧
      mkBaseRule "App" "IN" "INBOUND" (resolveCurrentCidr "10.0.0.0/16" (some ⟨8, 1⟩))
        "10.0.0.0/16" 4000 baseRow4000 ≠ exRule4000) := by
  refine ⟨⟨rfl, (c4_template_overwrite "App" "10.0.0.0/16" (some ⟨8, 1⟩)
    (seedState [exRule4000]) baseRowNoPrio).1 rfl⟩,
    rfl, by decide, ?_, by decide, by decide, by decide⟩
  exact ((c4_template_overwrite "App" "10.0.0.0/16" (some ⟨8, 1⟩)
    (seedState [exRule4000]) baseRow4000).2 4000 rfl).1

/-- C5: under the invariant that both used-priority sets are contained in the
RuleSet's key set (which holds throughout a run), the allocator never returns
a priority in either used set or in the RuleSet at the moment of the call,
and the next allocation for that direction (which scans from the advanced
counter `v + PRIORITY_STEP`) is strictly greater, whatever is in use then. -/
theorem c5_allocator_fresh (st : MState) (target : Finset Int) (c : Int)
    (htarget : target = st.usedIn ∨ target = st.usedOut)
    (hsubIn : st.usedIn ⊆ keysF st.merged)
    (hsubOut : st.usedOut ⊆ keysF st.merged) :
    (allocFirst c (target ∪ keysF st.merged) ∉ st.usedIn ∧
      allocFirst c (target ∪ keysF st.merged) ∉ st.usedOut ∧
      hasKey st.merged (allocFirst c (target ∪ keysF st.merged)) = false) ∧
    ∀ bad2 : Finset Int,
      allocFirst c (target ∪ keysF st.merged) <
        allocFirst (allocFirst c (target ∪ keysF st.merged) + PRIORITY_STEP) bad2 := by
  have hnot : allocFirst c (target ∪ keysF st.merged) ∉ target ∪ keysF st.merged :=
    allocFirst_not_mem c (target ∪ keysF st.merged)
  have hkeys : allocFirst c (target ∪ keysF st.merged) ∉ keysF st.merged :=
    fun h => hnot (Finset.mem_union_right _ h)
  have husedIn : allocFirst c (target ∪ keysF st.merged) ∉ st.usedIn := by
    rcases htarget with h | h
    · exact fun hm => hnot (Finset.mem_union_left _ (h ▸ hm))
    · exact fun hm => hkeys (hsubIn hm)
  have husedOut : allocFirst c (target ∪ keysF st.merged) ∉ st.usedOut := by
    rcases htarget with h | h
    · exact fun hm => hkeys (hsubOut hm)
    · exact fun hm => hnot (Finset.mem_union_left _ (h ▸ hm))
  refine ⟨⟨husedIn, husedOut, ?_⟩, ?_⟩
  · cases hh : hasKey st.merged (allocFirst c (target ∪ keysF st.merged)) with
    | false => rfl
    | true => exact absurd ((mem_keysF_iff _ _).mpr hh) hkeys
  · intro bad2
    have hge := allocFirst_ge (allocFirst c (target ∪ keysF st.merged) + PRIORITY_STEP) bad2
    have := priority_step_pos
    omega

/-- C5, witness: in the state seeded from the spec's example rule, the first
Inbound allocation avoids the used set and the RuleSet, and a following
allocation from the advanced counter is strictly larger. -/
theorem c5_allocator_fresh_witness :
    (allocFirst 1000 ((seedState [exInbound1000]).usedIn ∪
        keysF (seedState [exInbound1000]).merged) ∉ (seedState [exInbound1000]).usedIn ∧
      allocFirst 1000 ((seedState [exInbound1000]).usedIn ∪
        keysF (seedState [exInbound1000]).merged) ∉ (seedState [exInbound1000]).usedOut ∧
      hasKey (seedState [exInbound1000]).merged (allocFirst 1000
        ((seedState [exInbound1000]).usedIn ∪
          keysF (seedState [exInbound1000]).merged)) = false) ∧
    allocFirst 1000 ((seedState [exInbound1000]).usedIn ∪
        keysF (seedState [exInbound1000]).merged) <
      allocFirst (allocFirst 1000 ((seedState [exInbound1000]).usedIn ∪
        keysF (seedState [exInbound1000]).merged) + PRIORITY_STEP) ∅ :=
  ⟨(c5_allocator_fresh (seedState [exInbound1000]) (seedState [exInbound1000]).usedIn
      1000 (Or.inl rfl) (by decide) (by decide)).1,
    (c5_allocator_fresh (seedState [exInbound1000]) (seedState [exInbound1000]).usedIn
      1000 (Or.inl rfl) (by decide) (by decide)).2 ∅⟩

/-- C8, counterexample: `splitBits` is not unconstrained — for the parseable
base `10.0.0.0/16` and `splitBits = 17` (new mask length 33), the computation
yields the failure result even though `splitIndex = 0 < 2 ^ 17`. -/
theorem c8_counterexample :
    parseIPv4Network "10.0.0.0/16" = some ⟨167772160, 16⟩ ∧
    (0 : Nat) < 2 ^ 17 ∧
    calculate_subnet_cidr "10.0.0.0/16" 17 0 = "" := by decide

/-- C8, amended: for a base block parsing with mask length `plen`, when
`plen + splitBits ≤ 32` and `splitIndex < 2 ^ splitBits` the resolver returns
the `splitIndex`-th equal sub-block of mask length `plen + splitBits`;
`splitIndex ≥ 2 ^ splitBits` yields the failure result, as does
`plen + splitBits > 32` for `plen < 32` — but a `/32` base block is yielded
back unchanged at `splitIndex = 0` for EVERY `splitBits` (the library yields
the network itself before validating the new mask length) and fails for
`splitIndex ≠ 0`; a failed parse gives the failure result, and the caller
substitutes the sentinel `ERROR_CIDR_CALC` and continues. -/
theorem c8_cidr_resolver (s : String) (nw : IPNet) (n i : Nat)
    (hparse : parseIPv4Network s = some nw) :
    (nw.plen + n ≤ 32 → i < 2 ^ n →
      calculate_subnet_cidr s n i =
        fmtNet ⟨nw.addr + i * 2 ^ (32 - (nw.plen + n)), nw.plen + n⟩) ∧
    (2 ^ n ≤ i → calculate_subnet_cidr s n i = "") ∧
    (nw.plen < 32 → 32 < nw.plen + n → calculate_subnet_cidr s n i = "") ∧
    (nw.plen = 32 → i = 0 → calculate_subnet_cidr s n i = fmtNet nw) ∧
    (nw.plen = 32 → i ≠ 0 → calculate_subnet_cidr s n i = "") ∧
    (∀ n' i' : Nat, calculate_subnet_cidr_net none n' i' = "") ∧
    (∀ vnet : String, ∀ sc : SubnetConf,
      calculate_subnet_cidr vnet sc.newbits sc.netnum = "" →
        resolveCurrentCidr vnet (some sc) = "ERROR_CIDR_CALC") := by
  refine ⟨?_, ?_, ?_, ?_, ?_, ?_, ?_⟩
  · intro hlen hi
    unfold calculate_subnet_cidr calculate_subnet_cidr_net
    rw [hparse]
    simp only []
    by_cases h32 : nw.plen = 32
    · rw [if_pos h32]
      have hn : n = 0 := by omega
      subst hn
      have hi0 : i = 0 := by
        have h1 : i < 1 := by simpa using hi
        omega
      subst hi0
      rw [if_pos rfl]
      simp
    · rw [if_neg h32]
      rw [if_pos hlen, if_pos hi]
  · intro hi
    unfold calculate_subnet_cidr calculate_subnet_cidr_net
    rw [hparse]
    simp only []
    have hpos : 0 < 2 ^ n := pow_pos (by norm_num) n
    by_cases h32 : nw.plen = 32
    · rw [if_pos h32, if_neg (by omega)]
    · rw [if_neg h32]
      by_cases hlen : nw.plen + n ≤ 32
      · rw [if_pos hlen, if_neg (by omega)]
      · rw [if_neg hlen]
  · intro hlt hgt
    unfold calculate_subnet_cidr calculate_subnet_cidr_net
    rw [hparse]
    simp only []
    rw [if_neg (by omega), if_neg (by omega)]
  · intro h32 hi0
    unfold calculate_subnet_cidr calculate_subnet_cidr_net
    rw [hparse]
    simp only []
    rw [if_pos h32, if_pos hi0]
  · intro h32 hi0
    unfold calculate_subnet_cidr calculate_subnet_cidr_net
    rw [hparse]
    simp only []
    rw [if_pos h32, if_neg hi0]
  · intro n' i'
    rfl
  · intro vnet sc h
    unfold resolveCurrentCidr
    simp only []
    rw [h, if_pos rfl]

/-- C8, witness: the spec's example `10.0.0.0/16, 8, 1 → 10.0.1.0/24`, an
out-of-range index failing, the `/32` base yielded back at index 0 and
failing at index 1, and the caller's sentinel substitution. -/
theorem c8_cidr_resolver_witness :
    parseIPv4Network "10.0.0.0/16" = some ⟨167772160, 16⟩ ∧
    calculate_subnet_cidr "10.0.0.0/16" 8 1 = "10.0.1.0/24" ∧
    calculate_subnet_cidr "10.0.0.0/16" 8 256 = "" ∧
    calculate_subnet_cidr "10.0.0.1/32" 1 0 = "10.0.0.1/32" ∧
    calculate_subnet_cidr "10.0.0.1/32" 1 1 = "" ∧
    resolveCurrentCidr "10.0.0.0/16" (some ⟨8, 256⟩) = "ERROR_CIDR_CALC" := by
  refine ⟨by decide, ?_, ?_, ?_, ?_, ?_⟩
  · have h := (c8_cidr_resolver "10.0.0.0/16" ⟨167772160, 16⟩ 8 1
      (by decide)).1 (by decide) (by decide)
    rw [h]
    decide
  · exact (c8_cidr_resolver "10.0.0.0/16" ⟨167772160, 16⟩ 8 256
      (by decide)).2.1 (by decide)
  · have h := (c8_cidr_resolver "10.0.0.1/32" ⟨167772161, 32⟩ 1 0
      (by decide)).2.2.2.1 rfl rfl
    rw [h]
    decide
  · exact (c8_cidr_resolver "10.0.0.1/32" ⟨167772161, 32⟩ 1 1
      (by decide)).2.2.2.2.1 rfl (by decide)
  · refine (c8_cidr_resolver "10.0.0.0/16" ⟨167772160, 16⟩ 8 256
      (by decide)).2.2.2.2.2.2 "10.0.0.0/16" ⟨8, 256⟩ ?_
    exact (c8_cidr_resolver "10.0.0.0/16" ⟨167772160, 16⟩ 8 256
      (by decide)).2.1 (by decide)

/-! ## Helper lemmas: the serializer's sort. -/

theorem keyLE_total (a b : Nat × Int) : keyLE a b ∨ keyLE b a := by
  unfold keyLE
  rcases lt_trichotomy a.1 b.1 with h | h | h
  · exact Or.inl (Or.inl h)
  · rcases le_total a.2 b.2 with h2 | h2
    · exact Or.inl (Or.inr ⟨h, h2⟩)
    · exact Or.inr (Or.inr ⟨h.symm, h2⟩)
  · exact Or.inr (Or.inl h)

theorem keyLE_trans (a b c : Nat × Int) (h1 : keyLE a b) (h2 : keyLE b c) :
    keyLE a c := by
  unfold keyLE at h1 h2 ⊢
  rcases h1 with h1 | ⟨h1, h1'⟩ <;> rcases h2 with h2 | ⟨h2, h2'⟩
  · exact Or.inl (lt_trans h1 h2)
  · exact Or.inl (h2 ▸ h1)
  · exact Or.inl (h1 ▸ h2)
  · exact Or.inr ⟨h1.trans h2, le_trans h1' h2'⟩

theorem mem_insOrd (x a : Rule) (l : List Rule) :
    a ∈ insOrd x l ↔ a = x ∨ a ∈ l := by
  induction l with
  | nil => simp [insOrd]
  | cons y t ih =>
    unfold insOrd
    by_cases h : keyLE (sortKey x) (sortKey y)
    · rw [if_pos h]
      simp [List.mem_cons]
    · rw [if_neg h]
      simp only [List.mem_cons, ih]
      tauto

theorem pairwise_insOrd (x : Rule) (l : List Rule)
    (h : l.Pairwise (fun a b => keyLE (sortKey a) (sortKey b))) :
    (insOrd x l).Pairwise (fun a b => keyLE (sortKey a) (sortKey b)) := by
  induction l with
  | nil => simp [insOrd]
  | cons y t ih =>
    rcases List.pairwise_cons.mp h with ⟨hy, ht⟩
    unfold insOrd
    by_cases hle : keyLE (sortKey x) (sortKey y)
    · rw [if_pos hle]
      refine List.pairwise_cons.mpr ⟨?_, h⟩
      intro b hb
      rcases List.mem_cons.mp hb with rfl | hb
      · exact hle
      · exact keyLE_trans _ _ _ hle (hy b hb)
    · rw [if_neg hle]
      refine List.pairwise_cons.mpr ⟨?_, ih ht⟩
      intro b hb
      rcases (mem_insOrd x b t).mp hb with rfl | hb
      · rcases keyLE_total (sortKey b) (sortKey y) with hh | hh
        · exact absurd hh hle
        · exact hh
      · exact hy b hb

theorem perm_insOrd (x : Rule) (l : List Rule) : List.Perm (insOrd x l) (x :: l) := by
  induction l with
  | nil => exact List.Perm.refl _
  | cons y t ih =>
    unfold insOrd
    by_cases h : keyLE (sortKey x) (sortKey y)
    · rw [if_pos h]
    · rw [if_neg h]
      exact List.Perm.trans (List.Perm.cons y ih) (List.Perm.swap x y t)

theorem sortRules_pairwise (l : List Rule) :
    (sortRules l).Pairwise (fun a b => keyLE (sortKey a) (sortKey b)) := by
  induction l with
  | nil => simp [sortRules]
  | cons a t ih => exact pairwise_insOrd a _ ih

theorem sortRules_perm (l : List Rule) : List.Perm (sortRules l) l := by
  induction l with
  | nil => exact List.Perm.refl _
  | cons a t ih =>
    exact List.Perm.trans (perm_insOrd a (sortRules t)) (List.Perm.cons a ih)

/-- C9: the serializer emits the final RuleSet's rules in the total order
`(direction index, priority)` — direction index 0 for rules whose lowered
direction contains `in` (Inbound), 1 otherwise (Outbound) — i.e. every
Inbound rule before every Outbound rule and ascending priority within a
direction; the output is a permutation of the RuleSet's values, and in
particular Inbound-9000 is serialized before Outbound-500. -/
theorem c9_serialize_order :
    (∀ m : List (Int × Rule),
      (serializeList m).Pairwise (fun a b => keyLE (sortKey a) (sortKey b)) ∧
      List.Perm (serializeList m) (m.map Prod.snd)) ∧
    serializeList [((500 : Int), outR500), (9000, inR9000)] = [inR9000, outR500] ∧
    dirIdx inR9000 = 0 ∧ dirIdx outR500 = 1 :=
  ⟨fun m => ⟨sortRules_pairwise _, sortRules_perm _⟩, by decide, by decide, by decide⟩

/-- C10, counterexample: a Direction cell of `TCP` satisfies the claim's
hypotheses (neither `INBOUND` nor `OUTBOUND`, no `IN` substring) and is
booked against the Outbound counter, but the inserted rule's direction is
`Tcp` — an `api_map` hit — not the claimed default `Inbound`. -/
theorem c10_counterexample :
    strTrim (strUpper reqDirTcp.direction) ≠ "INBOUND" ∧
    strTrim (strUpper reqDirTcp.direction) ≠ "OUTBOUND" ∧
    hasSub "IN" (strTrim (strUpper reqDirTcp.direction)) = false ∧
    lookupKey (clientStep "App" stEmpty reqDirTcp).merged 1000 =
      some (mkClientRule "App" "OUT" "TCP" 1000 reqDirTcp) ∧
    (mkClientRule "App" "OUT" "TCP" 1000 reqDirTcp).direction = "Tcp" ∧
    (mkClientRule "App" "OUT" "TCP" 1000 reqDirTcp).direction ≠ "Inbound" ∧
    (clientStep "App" stEmpty reqDirTcp).usedOut = insert 1000 stEmpty.usedOut := by
  decide

/-- C10, amended: for a row with no parsed priority whose trimmed, uppercased
Direction lacks the substring `IN` AND is no `api_map` key at all, the rule is
inserted with direction defaulting to `Inbound` while the allocation and
bookkeeping run against the Outbound counter and Outbound used set. -/
theorem c10_fallback_direction (segKey : String) (st : MState) (row : Row)
    (hin : hasSub "IN" (strTrim (strUpper row.direction)) = false)
    (hmap : api_map (strTrim (strUpper row.direction)) = none)
    (hp : row.priority = none) :
    lookupKey (clientStep segKey st row).merged
        (allocFirst st.cOut (st.usedOut ∪ keysF st.merged)) =
      some (mkClientRule segKey "OUT" (strTrim (strUpper row.direction))
        (allocFirst st.cOut (st.usedOut ∪ keysF st.merged)) row) ∧
    (mkClientRule segKey "OUT" (strTrim (strUpper row.direction))
      (allocFirst st.cOut (st.usedOut ∪ keysF st.merged)) row).direction = "Inbound" ∧
    (clientStep segKey st row).usedOut =
      insert (allocFirst st.cOut (st.usedOut ∪ keysF st.merged)) st.usedOut ∧
    (clientStep segKey st row).usedIn = st.usedIn ∧
    (clientStep segKey st row).cOut =
      allocFirst st.cOut (st.usedOut ∪ keysF st.merged) + PRIORITY_STEP ∧
    (clientStep segKey st row).cIn = st.cIn := by
  have hdir : (if hasSub "IN" (strTrim (strUpper row.direction)) = true
      then "IN" else "OUT") = "OUT" := by
    rw [hin]
    rfl
  have hstep : clientStep segKey st row =
      clientAlloc segKey st row (strTrim (strUpper row.direction)) "OUT" false := by
    unfold clientStep
    rw [hp]
    simp only []
    rw [hdir]
    rfl
  rw [hstep]
  refine ⟨?_, ?_, rfl, rfl, rfl, rfl⟩
  · exact lookup_setKey_self _ _ _
  · show api_map_get (strTrim (strUpper row.direction)) "Inbound" = "Inbound"
    unfold api_map_get
    rw [hmap]
    rfl

/-- C10, witness: the claim's own example — Direction `out` (uppercased:
`OUT`, not an `api_map` key) gets a rule recorded as `Inbound` while the
Outbound counter and used set are consumed. -/
theorem c10_fallback_direction_witness :
    (hasSub "IN" (strTrim (strUpper reqDirOut.direction)) = false ∧
      api_map (strTrim (strUpper reqDirOut.direction)) = none ∧
      reqDirOut.priority = none) ∧
    lookupKey (clientStep "App" stEmpty reqDirOut).merged
        (allocFirst stEmpty.cOut (stEmpty.usedOut ∪ keysF stEmpty.merged)) =
      some (mkClientRule "App" "OUT" (strTrim (strUpper reqDirOut.direction))
        (allocFirst stEmpty.cOut (stEmpty.usedOut ∪ keysF stEmpty.merged)) reqDirOut) ∧
    (mkClientRule "App" "OUT" (strTrim (strUpper reqDirOut.direction))
      (allocFirst stEmpty.cOut (stEmpty.usedOut ∪ keysF stEmpty.merged))
        reqDirOut).direction = "Inbound" ∧
    (clientStep "App" stEmpty reqDirOut).usedOut =
      insert (allocFirst stEmpty.cOut (stEmpty.usedOut ∪ keysF stEmpty.merged))
        stEmpty.usedOut ∧
    (clientStep "App" stEmpty reqDirOut).usedIn = stEmpty.usedIn := by
  have h := c10_fallback_direction "App" stEmpty reqDirOut (by decide) (by decide) rfl
  exact ⟨⟨by decide, by decide, rfl⟩, h.1, h.2.1, h.2.2.1, h.2.2.2.1⟩

end NsgBuilder
